import Mathlib

/-
Verification of the LLVM-intrinsic emulation layer of a cranelift-based
code generator (source file: src/intrinsics/llvm.rs).

The embedding models the lowering engine as a pure function from an
intrinsic call (name, arguments, optional destination) to either a fatal
abort of codegen (panics, failed asserts, unreachable and unimplemented
arms) or the list of observable effects emitted into the instruction
stream: diagnostics, writes of the result value to the destination
storage, memory stores, trap instructions, and the final jump.  Scalar
and vector values are bit patterns represented as Nat; machine integers
wrap with explicit mod 2 to the width.  Computation instructions that
only define SSA values are abstracted into the result value that the
lowering writes to the destination.
-/

namespace LlvmIntrinsics

/-- Binary operation selector passed to llvm_add_sub, mirroring BinOp::Add
and BinOp::Sub at the call sites of the two carry intrinsics. -/
inductive BinOp
  | add
  | sub
  deriving DecidableEq

/-- Cranelift lane types occurring in this lowering: F32, F64 and integer
types of a given bit width (the clif_type of the Rust lane type). -/
inductive LaneTy
  | F32
  | F64
  | I (w : Nat)
  deriving DecidableEq

/-- Bit width of a lane type, as returned by lane_ty.bits() in the source. -/
def LaneTy.bits : LaneTy → Nat
  | .F32 => 32
  | .F64 => 64
  | .I w => w

/-- The Rust-level type of a scalar operand, recorded only as far as the
source inspects it: the carry intrinsics assert the operand type is u64. -/
inductive RTy
  | u64
  | otherTy
  deriving DecidableEq

/-- A compile-time constant operand value: its byte size and bit pattern,
as consumed by try_to_bits. -/
structure ConstVal where
  size : Nat
  bits : Nat
  deriving DecidableEq

/-- An argument slot of the intrinsic call, with the shape fixed by the
intrinsic signature: a vector-typed CValue, a scalar value (either a
CValue or a raw loaded scalar), or a raw operand expected to resolve to a
compile-time constant (none when it is not statically known). -/
inductive Arg
  | vecVal (ty : LaneTy) (lanes : List Nat)
  | scalarVal (ty : RTy) (bits : Nat)
  | rawOperand (c : Option ConstVal)
  deriving DecidableEq

/-- The value written to the destination storage location. -/
inductive RVal
  | scalar (w : Nat) (bits : Nat)
  | vec (lanes : List Nat)
  | pairU8U64 (cb : Nat) (v : Nat)
  deriving DecidableEq

/-- Fatal aborts of the current codegen: destination.unwrap() on None,
argument-shape mismatches, failed asserts, non-constant operands that
must be immediates, the deliberately unimplemented and the unreachable
comparison-kind arms, a non-float lane reaching the float compare, and a
lane-count mismatch between paired vectors. -/
inductive Fatal
  | unwrapNone
  | argShape
  | assertLaneCount
  | assertOperandTy
  | notConst
  | notScalarConst
  | unimplementedCmpKind (code : Nat)
  | unreachableCmpKind (code : Nat)
  | nonFloatLane
  | laneCountMismatch
  deriving DecidableEq

/-- Observable effects appended to the instruction stream by one
call-lowering invocation. -/
inductive Emit
  | writeRet (v : RVal)
  | instStore (addr : Nat) (lanes : List Nat)
  | instTrapUnimplemented (name : String)
  | instTrapUnreachable (msg : String)
  | instJump (block : Nat)
  | diagWarn (msg : String)
  deriving DecidableEq

/-- Terminator-class instructions: jumps and traps. -/
def isTerminatorE : Emit → Bool
  | .instTrapUnimplemented _ => true
  | .instTrapUnreachable _ => true
  | .instJump _ => true
  | _ => false

/-- Writes to the destination storage location. -/
def isRetWriteE : Emit → Bool
  | .writeRet _ => true
  | _ => false

/-- Memory store effects. -/
def isStoreE : Emit → Bool
  | .instStore _ _ => true
  | _ => false

/-- Diagnostics. -/
def isDiagE : Emit → Bool
  | .diagWarn _ => true
  | _ => false

/-- Modelled from the spec: crate::num::codegen_checked_int_binop is not
part of the analysed source file; per the spec it is the overflow-checked
primitive yielding (wrapped result, overflow flag) for u64 add and sub. -/
def checkedBinop : BinOp → Nat → Nat → Nat × Bool
  | .add, x, y => ((x + y) % 2 ^ 64, decide (2 ^ 64 ≤ x + y))
  | .sub, x, y => ((2 ^ 64 + x - y) % 2 ^ 64, decide (x < y))

/-- Cranelift uextend of the 1-bit carry or borrow in to 64 bits: the
value is preserved unchanged. -/
def uextend64 (x : Nat) : Nat := x

/-- The carry or borrow composition routine llvm_add_sub: stage one
applies the checked operation to the two operands, stage two applies it
again between the stage-one result and the widened carry in, and the two
overflow flags are combined with logical OR.  Returns the pair written to
the destination: (carry or borrow out as 0 or 1, the 64-bit value). -/
def llvm_add_sub (bin_op : BinOp) (cb_in a b : Nat) : Nat × Nat :=
  let int0 := checkedBinop bin_op a b
  let cb_in_as_u64 := uextend64 cb_in
  let int1 := checkedBinop bin_op int0.1 cb_in_as_u64
  let cb_out := int0.2 || int1.2
  (cond cb_out 1 0, int1.1)

/-- Sign bit of a w-bit lane: the Cranelift ushr_imm of the lane by
(lane_ty.bits() - 1).  A float lane is first bitcast to the equal-width
integer type, which leaves the bit pattern unchanged, so a lane is
represented by its bit pattern throughout. -/
def signBit (w bits : Nat) : Nat := bits / 2 ^ (w - 1)

/-- The movemask fold: res starts as an I32 iconst 0; for each lane from
the highest index down to the lowest, the running result is shifted left
by one (I32 ishl_imm, wrapping at 32 bits), the sign bit of the lane is
extended or truncated to 32 bits (the identity on a 0 or 1 value) and
ORed in.  Lane 0 therefore lands in output bit 0. -/
def movemask (w : Nat) (lanes : List Nat) : Nat :=
  lanes.reverse.foldl (fun res lane => res * 2 % 2 ^ 32 ||| signBit w lane) 0

/-- Cranelift ushr_imm on an I32 lane: logical shift right with the
shift amount taken modulo the 32-bit type width. -/
def ushr_imm32 (x k : Nat) : Nat := x / 2 ^ (k % 32)

/-- Cranelift ishl_imm on an I32 lane: logical shift left modulo 2^32
with the shift amount taken modulo the 32-bit type width. -/
def ishl_imm32 (x k : Nat) : Nat := x * 2 ^ (k % 32) % 2 ^ 32

/-- Per-lane lowering of llvm.x86.sse2.psrli.d: when the resolved
immediate is below 32, ushr_imm by the immediate truncated to u8;
otherwise the lane becomes the constant 0. -/
def psrli_d_lane (imm8 lane : Nat) : Nat :=
  if imm8 < 32 then ushr_imm32 lane (imm8 % 256) else 0

/-- Per-lane lowering of llvm.x86.sse2.pslli.d: when the resolved
immediate is below 32, ishl_imm by the immediate truncated to u8;
otherwise the lane becomes the constant 0. -/
def pslli_d_lane (imm8 lane : Nat) : Nat :=
  if imm8 < 32 then ishl_imm32 lane (imm8 % 256) else 0

/-- All lanes of the psrli.d lowering. -/
def psrli_d (imm8 : Nat) (lanes : List Nat) : List Nat :=
  lanes.map (psrli_d_lane imm8)

/-- All lanes of the pslli.d lowering. -/
def pslli_d (imm8 : Nat) (lanes : List Nat) : List Nat :=
  lanes.map (pslli_d_lane imm8)

/-- try_to_bits on a constant: yields the bit pattern only when the
constant has exactly the requested byte size. -/
def try_to_bits (size : Nat) (c : ConstVal) : Option Nat :=
  if c.size = size then some c.bits else none

/-- Cranelift float condition codes used by this lowering. -/
inductive FloatCC
  | Equal
  | LessThan
  | LessThanOrEqual
  | NotEqual
  deriving DecidableEq

/-- Result of decoding the constant comparison-kind operand of
llvm.x86.sse2.cmp.ps and cmp.pd: a supported condition code, one of the
deliberately unimplemented kinds, or the unreachable fatal arm. -/
inductive KindDecode
  | ok (cc : FloatCC)
  | unimplementedKind
  | unreachableKind (code : Nat)
  deriving DecidableEq

/-- Decoding of the comparison-kind byte, with the arms in source order:
0 is Equal, 1 is LessThan, 2 is LessThanOrEqual, 7 and 3 are the
unimplemented ordered and unordered NaN checks, 4 is NotEqual, 5 and 6
are the unimplemented not-less-than and not-less-than-or-equal, and any
other code hits the unreachable arm. -/
def decode_cmp_kind (kind : Nat) : KindDecode :=
  if kind = 0 then KindDecode.ok FloatCC.Equal
  else if kind = 1 then KindDecode.ok FloatCC.LessThan
  else if kind = 2 then KindDecode.ok FloatCC.LessThanOrEqual
  else if kind = 7 then KindDecode.unimplementedKind
  else if kind = 3 then KindDecode.unimplementedKind
  else if kind = 4 then KindDecode.ok FloatCC.NotEqual
  else if kind = 5 then KindDecode.unimplementedKind
  else if kind = 6 then KindDecode.unimplementedKind
  else KindDecode.unreachableKind kind

/-- An IEEE 754 binary interchange format: mantissa and exponent widths.
The total width is mantW + expW + 1. -/
structure FloatFmt where
  mantW : Nat
  expW : Nat
  deriving DecidableEq

/-- The binary32 format of F32 lanes. -/
def fmt32 : FloatFmt := ⟨23, 8⟩

/-- The binary64 format of F64 lanes. -/
def fmt64 : FloatFmt := ⟨52, 11⟩

/-- Mantissa field of a bit pattern. -/
def fmant (f : FloatFmt) (x : Nat) : Nat := x % 2 ^ f.mantW

/-- Exponent field of a bit pattern. -/
def fexp (f : FloatFmt) (x : Nat) : Nat := x / 2 ^ f.mantW % 2 ^ f.expW

/-- Sign field of a bit pattern, 0 or 1. -/
def fsign (f : FloatFmt) (x : Nat) : Nat := x / 2 ^ (f.mantW + f.expW) % 2

/-- NaN: exponent all ones with a nonzero mantissa. -/
def fisNaN (f : FloatFmt) (x : Nat) : Bool :=
  decide (fexp f x = 2 ^ f.expW - 1) && decide (fmant f x ≠ 0)

/-- Zero of either sign: all magnitude bits clear. -/
def fisZero (f : FloatFmt) (x : Nat) : Bool :=
  decide (x % 2 ^ (f.mantW + f.expW) = 0)

/-- Magnitude of a bit pattern as a scaled integer (units of the
smallest subnormal): subnormals are the raw mantissa, normal numbers
carry the hidden bit, and the all-ones exponent yields a value beyond
every finite one, which orders the infinities correctly. -/
def fmag (f : FloatFmt) (x : Nat) : Nat :=
  if fexp f x = 0 then fmant f x
  else (2 ^ f.mantW + fmant f x) * 2 ^ (fexp f x - 1)

/-- Signed scaled value of a bit pattern; meaningful for non-NaN
patterns.  Both zeros map to 0. -/
def fval (f : FloatFmt) (x : Nat) : Int :=
  (if fsign f x = 1 then (-1 : Int) else 1) * (fmag f x : Int)

/-- Semantics of the Cranelift fcmp instruction for the condition codes
this lowering can produce, following IEEE 754: every comparison except
NotEqual is false when either operand is NaN, NotEqual is the complement
of Equal, and ordered operands compare by value. -/
def fcmp (f : FloatFmt) (cc : FloatCC) (x y : Nat) : Bool :=
  if fisNaN f x || fisNaN f y then
    match cc with
    | FloatCC.NotEqual => true
    | _ => false
  else
    match cc with
    | FloatCC.Equal => decide (fval f x = fval f y)
    | FloatCC.LessThan => decide (fval f x < fval f y)
    | FloatCC.LessThanOrEqual => decide (fval f x ≤ fval f y)
    | FloatCC.NotEqual => decide (fval f x ≠ fval f y)

/-- Modelled from the spec: bool_to_zero_or_max_uint is defined outside
the analysed source file; per the spec each boolean lane result is
encoded as the full-width all-ones pattern for true and all-zero for
false. -/
def bool_to_zero_or_max_uint (w : Nat) (b : Bool) : Nat :=
  if b then 2 ^ w - 1 else 0

/-- The per-lane closure of the cmp.ps and cmp.pd lowering: fcmp on
float lanes, and the unreachable arm (a fatal invariant violation) on
any other lane type. -/
def cmp_lane (flt_cc : FloatCC) (ty : LaneTy) (x y : Nat) : Except Fatal Nat :=
  match ty with
  | LaneTy.F32 => Except.ok (bool_to_zero_or_max_uint 32 (fcmp fmt32 flt_cc x y))
  | LaneTy.F64 => Except.ok (bool_to_zero_or_max_uint 64 (fcmp fmt64 flt_cc x y))
  | LaneTy.I _ => Except.error Fatal.nonFloatLane

/-- Modelled from the spec: simd_pair_for_each_lane is defined outside
the analysed source file; per the spec it applies the supplied transform
to the paired lanes of two vectors of equal lane count, a mismatch being
a fatal precondition violation. -/
def simd_pair_map (g : Nat → Nat → Except Fatal Nat) (xs ys : List Nat) :
    Except Fatal (List Nat) :=
  if xs.length = ys.length then
    (xs.zip ys).mapM fun p => g p.1 p.2
  else Except.error Fatal.laneCountMismatch

/-- Wraps the value computed by a lowering into the single write of the
destination storage location that the arm performs. -/
def retLowering (core : Except Fatal RVal) : Except Fatal (List Emit) :=
  core.map fun v => [Emit.writeRet v]

/-- Core of the movemask arm: read the lane geometry, assert the lane
count fits the 32-bit result, then fold the sign bits into an i32. -/
def movemask_core (args : List Arg) : Except Fatal RVal :=
  match args with
  | [Arg.vecVal lane_ty a] =>
    if a.length ≤ 32 then
      Except.ok (RVal.scalar 32 (movemask lane_ty.bits a))
    else Except.error Fatal.assertLaneCount
  | _ => Except.error Fatal.argShape

/-- The movemask lowering arm. -/
def movemask_lowering (args : List Arg) : Except Fatal (List Emit) :=
  retLowering (movemask_core args)

/-- Core of the cmp.ps and cmp.pd arm: resolve the constant kind byte,
decode it (the unimplemented and unreachable arms abort codegen), then
compare lane-wise. -/
def cmp_core (args : List Arg) : Except Fatal RVal :=
  match args with
  | [Arg.vecVal tyx xs, Arg.vecVal _tyy ys, Arg.rawOperand kop] =>
    match kop with
    | none => Except.error Fatal.notConst
    | some kc =>
      match try_to_bits 1 kc with
      | none => Except.error Fatal.notScalarConst
      | some kind =>
        match decode_cmp_kind kind with
        | KindDecode.unimplementedKind => Except.error (Fatal.unimplementedCmpKind kind)
        | KindDecode.unreachableKind k => Except.error (Fatal.unreachableCmpKind k)
        | KindDecode.ok flt_cc =>
          (simd_pair_map (cmp_lane flt_cc tyx) xs ys).map RVal.vec
  | _ => Except.error Fatal.argShape

/-- The cmp.ps and cmp.pd lowering arm. -/
def cmp_lowering (args : List Arg) : Except Fatal (List Emit) :=
  retLowering (cmp_core args)

/-- Core of the psrli.d arm: resolve the constant immediate (a fatal
abort when it is not a constant), then shift every lane; the per-lane
closure aborts when the constant does not fit four bytes. -/
def psrli_core (args : List Arg) : Except Fatal RVal :=
  match args with
  | [Arg.vecVal _ a, Arg.rawOperand iop] =>
    match iop with
    | none => Except.error Fatal.notConst
    | some c =>
      (a.mapM fun lane =>
        match try_to_bits 4 c with
        | none => Except.error Fatal.notScalarConst
        | some imm8 => Except.ok (psrli_d_lane imm8 lane)).map RVal.vec
  | _ => Except.error Fatal.argShape

/-- The psrli.d lowering arm. -/
def psrli_lowering (args : List Arg) : Except Fatal (List Emit) :=
  retLowering (psrli_core args)

/-- Core of the pslli.d arm, identical to psrli.d except for the shift
direction. -/
def pslli_core (args : List Arg) : Except Fatal RVal :=
  match args with
  | [Arg.vecVal _ a, Arg.rawOperand iop] =>
    match iop with
    | none => Except.error Fatal.notConst
    | some c =>
      (a.mapM fun lane =>
        match try_to_bits 4 c with
        | none => Except.error Fatal.notScalarConst
        | some imm8 => Except.ok (pslli_d_lane imm8 lane)).map RVal.vec
  | _ => Except.error Fatal.argShape

/-- The pslli.d lowering arm. -/
def pslli_lowering (args : List Arg) : Except Fatal (List Emit) :=
  retLowering (pslli_core args)

/-- The storeu.dq arm: write the whole vector value through the raw
pointer operand; nothing is written to the destination storage. -/
def storeu_lowering (args : List Arg) : Except Fatal (List Emit) :=
  match args with
  | [Arg.scalarVal _ mem_addr, Arg.vecVal _ a] =>
    Except.ok [Emit.instStore mem_addr a]
  | _ => Except.error Fatal.argShape

/-- Core of the addcarry.64 and subborrow.64 arms: both value operands
must have type u64 (asserted in order), then llvm_add_sub composes the
two checked operations and the (u8, u64) pair is written. -/
def llvm_add_sub_core (bin_op : BinOp) (args : List Arg) : Except Fatal RVal :=
  match args with
  | [Arg.scalarVal _ cb_in, Arg.scalarVal tya a, Arg.scalarVal tyb b] =>
    if tya = RTy.u64 then
      if tyb = RTy.u64 then
        Except.ok (RVal.pairU8U64 (llvm_add_sub bin_op cb_in a b).1
          (llvm_add_sub bin_op cb_in a b).2)
      else Except.error Fatal.assertOperandTy
    else Except.error Fatal.assertOperandTy
  | _ => Except.error Fatal.argShape

/-- The addcarry.64 and subborrow.64 lowering arm. -/
def llvm_add_sub_lowering (bin_op : BinOp) (args : List Arg) :
    Except Fatal (List Emit) :=
  retLowering (llvm_add_sub_core bin_op args)

/-- Intrinsic names recognised by the dispatch, in source order. -/
def pmovmskb128Name : String := "llvm.x86.sse2.pmovmskb.128"

/-- Second movemask alias. -/
def pmovmskbAvx2Name : String := "llvm.x86.avx2.pmovmskb"

/-- Third movemask alias. -/
def movmskPdName : String := "llvm.x86.sse2.movmsk.pd"

/-- Packed single compare. -/
def cmpPsName : String := "llvm.x86.sse2.cmp.ps"

/-- Packed double compare. -/
def cmpPdName : String := "llvm.x86.sse2.cmp.pd"

/-- Logical shift right by immediate. -/
def psrliDName : String := "llvm.x86.sse2.psrli.d"

/-- Logical shift left by immediate. -/
def pslliDName : String := "llvm.x86.sse2.pslli.d"

/-- Unaligned vector store. -/
def storeuDqName : String := "llvm.x86.sse2.storeu.dq"

/-- Add with carry in. -/
def addcarry64Name : String := "llvm.x86.addcarry.64"

/-- Subtract with borrow in. -/
def subborrow64Name : String := "llvm.x86.subborrow.64"

/-- A representative intrinsic name with no arm in the dispatch table,
used to exercise the fallback path. -/
def unknownIntrinsicName : String := "llvm.x86.sse3.ldu.dq"

/-- The dispatch table: every intrinsic name with a non-fallback arm. -/
def dispatchTable : List String :=
  [pmovmskb128Name, pmovmskbAvx2Name, movmskPdName, cmpPsName, cmpPdName,
    psrliDName, pslliDName, storeuDqName, addcarry64Name, subborrow64Name]

/-- Modelled from the spec: the diagnostic text of the fallback path,
naming the unsupported intrinsic. -/
def warnMessage (name : String) : String :=
  "unsupported llvm intrinsic " ++ name ++ "; replacing with trap"

/-- The message of the dead corruption trap in the finalizer. -/
def corruptionMessage : String := "[corruption] Diverging intrinsic returned."

/-- The intrinsic_match dispatch on the intrinsic name: exact string
matching against the fixed arms, with the fallback emitting one warning
diagnostic and one trap instruction replacing the call. -/
def dispatch_llvm (intrinsic : String) (args : List Arg) :
    Except Fatal (List Emit) :=
  if intrinsic = pmovmskb128Name ∨ intrinsic = pmovmskbAvx2Name ∨
      intrinsic = movmskPdName then
    movemask_lowering args
  else if intrinsic = cmpPsName ∨ intrinsic = cmpPdName then
    cmp_lowering args
  else if intrinsic = psrliDName then
    psrli_lowering args
  else if intrinsic = pslliDName then
    pslli_lowering args
  else if intrinsic = storeuDqName then
    storeu_lowering args
  else if intrinsic = addcarry64Name then
    llvm_add_sub_lowering BinOp.add args
  else if intrinsic = subborrow64Name then
    llvm_add_sub_lowering BinOp.sub args
  else
    Except.ok [Emit.diagWarn (warnMessage intrinsic),
      Emit.instTrapUnimplemented intrinsic]

/-- The control-flow finalizer after the dispatch: jump to the successor
block when a destination exists, otherwise emit the corruption trap.
The trap branch is dead code, because the destination was already
unwrapped at function entry. -/
def finalize (destination : Option (Nat × Nat)) : List Emit :=
  match destination with
  | some dsb => [Emit.instJump dsb.2]
  | none => [Emit.instTrapUnreachable corruptionMessage]

/-- The entry point codegen_llvm_intrinsic_call: first the destination
is unwrapped (a fatal abort when it is absent, before anything is
emitted), then the dispatch runs, then the finalizer appends the
terminator. -/
def codegen_llvm_intrinsic_call (intrinsic : String) (args : List Arg)
    (destination : Option (Nat × Nat)) : Except Fatal (List Emit) :=
  match destination with
  | none => Except.error Fatal.unwrapNone
  | some dsb =>
    match dispatch_llvm intrinsic args with
    | Except.error e => Except.error e
    | Except.ok body => Except.ok (body ++ finalize (some dsb))

end LlvmIntrinsics

namespace LlvmIntrinsics

/-- C1: for u64 operands a and b and carry bit c, the add-with-carry-in
lowering returns (carry_out, result) with carry_out * 2^64 + result equal
to a + b + c exactly, and the subtract-with-borrow-in lowering returns
a - b - c modulo 2^64 with the borrow flag set exactly when a - b - c
underflows. -/
theorem llvm_add_sub_exact (a b c : Nat)
    (ha : a < 2 ^ 64) (hb : b < 2 ^ 64) (hc : c ≤ 1) :
    (llvm_add_sub BinOp.add c a b).1 * 2 ^ 64 + (llvm_add_sub BinOp.add c a b).2
        = a + b + c ∧
    ((llvm_add_sub BinOp.sub c a b).2 : Int)
        = ((a : Int) - (b : Int) - (c : Int)) % 2 ^ 64 ∧
    ((llvm_add_sub BinOp.sub c a b).1 = 1 ↔ a < b + c) := by
  unfold llvm_add_sub checkedBinop uextend64
  simp only [Bool.cond_eq_if, Bool.or_eq_true, decide_eq_true_eq]
  refine ⟨?_, ?_, ?_⟩
  · split_ifs with h
    · rcases h with h | h <;> omega
    · push_neg at h
      omega
  · omega
  · split_ifs with h
    · refine iff_of_true rfl ?_
      rcases h with h | h <;> omega
    · push_neg at h
      exact iff_of_false (by decide) (by omega)

/-- Witness for C1 at the spec scenario a = u64 max, b = 1, c = 0, which
must yield carry_out = 1 and result = 0. -/
theorem llvm_add_sub_exact_witness :
    (llvm_add_sub BinOp.add 0 (2 ^ 64 - 1) 1).1 * 2 ^ 64
        + (llvm_add_sub BinOp.add 0 (2 ^ 64 - 1) 1).2 = (2 ^ 64 - 1) + 1 + 0 :=
  (llvm_add_sub_exact (2 ^ 64 - 1) 1 0 (by decide) (by decide) (by decide)).1

/-- C10: for u64 operands and a carry bit, the two intermediate overflow
flags of the carry or borrow composition are never both set, so the
logical OR combining them equals their exact arithmetic sum. -/
theorem overflow_flags_exclusive (bin_op : BinOp) (a b c : Nat)
    (ha : a < 2 ^ 64) (hb : b < 2 ^ 64) (hc : c ≤ 1) :
    ¬((checkedBinop bin_op a b).2 = true ∧
        (checkedBinop bin_op (checkedBinop bin_op a b).1 c).2 = true) ∧
    cond ((checkedBinop bin_op a b).2 || (checkedBinop bin_op (checkedBinop bin_op a b).1 c).2) 1 0
      = cond (checkedBinop bin_op a b).2 1 0
          + cond (checkedBinop bin_op (checkedBinop bin_op a b).1 c).2 1 0 := by
  cases bin_op <;>
    unfold checkedBinop <;>
    simp only [Bool.cond_eq_if, Bool.or_eq_true, decide_eq_true_eq,
      not_and] <;>
    refine ⟨?_, ?_⟩ <;>
    first
      | (intro h0 h1
         omega)
      | (split_ifs with h h0 h1 <;> omega)

/-- Witness for C10 at a = u64 max, b = 1, c = 1: the first flag fires,
the second cannot. -/
theorem overflow_flags_exclusive_witness :
    ¬((checkedBinop BinOp.add (2 ^ 64 - 1) 1).2 = true ∧
        (checkedBinop BinOp.add (checkedBinop BinOp.add (2 ^ 64 - 1) 1).1 1).2 = true) :=
  (overflow_flags_exclusive BinOp.add (2 ^ 64 - 1) 1 1 (by decide) (by decide)
    (by decide)).1

/-- The sign bit of a w-bit lane is 0 or 1. -/
theorem signBit_lt_two (w l : Nat) (hw : 0 < w) (hl : l < 2 ^ w) :
    signBit w l < 2 := by
  have h2w : 2 ^ w = 2 ^ (w - 1) * 2 := by
    conv_lhs => rw [show w = (w - 1) + 1 by omega]
    rw [pow_succ]
  unfold signBit
  rw [Nat.div_lt_iff_lt_mul (by positivity)]
  omega

/-- Unfolding of the movemask fold over the lowest-indexed lane, which
the reversed loop processes last. -/
theorem movemask_cons (w l : Nat) (ls : List Nat) :
    movemask w (l :: ls) = movemask w ls * 2 % 2 ^ 32 ||| signBit w l := by
  unfold movemask
  rw [List.reverse_cons, List.foldl_append]
  rfl

/-- Bit i of the movemask result is the sign bit of lane i. -/
theorem movemask_testBit (w : Nat) (lanes : List Nat) (i : Nat) (hw : 0 < w)
    (hlen : lanes.length ≤ 32) (hb : ∀ l ∈ lanes, l < 2 ^ w)
    (hi : i < lanes.length) :
    (movemask w lanes).testBit i = (lanes.getD i 0).testBit (w - 1) := by
  induction lanes generalizing i with
  | nil => simp at hi
  | cons l ls ih =>
    rw [movemask_cons, Nat.testBit_or, Nat.testBit_mod_two_pow]
    have hsl : signBit w l < 2 :=
      signBit_lt_two w l hw (hb l (List.mem_cons_self l ls))
    cases i with
    | zero =>
      have h2 : (movemask w ls * 2).testBit 0 = false := by
        simp [Nat.testBit_zero, Nat.mul_mod_left]
      simp only [h2, Bool.and_false, Bool.false_or, List.getD_cons_zero]
      rw [Nat.testBit_zero, Nat.testBit_to_div_mod]
      unfold signBit
      rfl
    | succ j =>
      have hj32 : j + 1 < 32 := by
        simp only [List.length_cons] at hi hlen
        omega
      have h2 : (movemask w ls * 2).testBit (j + 1) = (movemask w ls).testBit j := by
        rw [Nat.testBit_add_one, Nat.mul_div_cancel _ (by omega : 0 < 2)]
      have h3 : (signBit w l).testBit (j + 1) = false := by
        refine Nat.testBit_lt_two_pow ?_
        calc signBit w l < 2 := hsl
        _ = 2 ^ 1 := (pow_one 2).symm
        _ ≤ 2 ^ (j + 1) := Nat.pow_le_pow_right (by omega) (by omega)
      simp only [h2, h3, Bool.or_false, hj32, decide_True, Bool.true_and,
        List.getD_cons_succ]
      refine ih j ?_ ?_ ?_
      · simp only [List.length_cons] at hlen
        omega
      · intro x hx
        exact hb x (List.mem_cons_of_mem l hx)
      · simp only [List.length_cons] at hi
        omega

/-- The movemask result fits 32 bits. -/
theorem movemask_lt (w : Nat) (lanes : List Nat) (hw : 0 < w)
    (hb : ∀ l ∈ lanes, l < 2 ^ w) :
    movemask w lanes < 2 ^ 32 := by
  induction lanes with
  | nil => simp [movemask]
  | cons l ls ih =>
    rw [movemask_cons]
    have h1 : movemask w ls * 2 % 2 ^ 32 < 2 ^ 32 :=
      Nat.mod_lt _ (by positivity)
    have h2 : signBit w l < 2 ^ 32 := by
      have := signBit_lt_two w l hw (hb l (List.mem_cons_self l ls))
      omega
    exact Nat.bitwise_lt_two_pow h1 h2

/-- C2: for every lane count up to 32, bit i of the sign-bit mask equals
the sign bit (the most significant bit) of lane i, lanes being traversed
from the highest index to the lowest so that lane 0 lands in bit 0, and
the mask fits the 32-bit result. -/
theorem movemask_bit_correct (w : Nat) (lanes : List Nat) (i : Nat)
    (hw : 0 < w) (hlen : lanes.length ≤ 32) (hb : ∀ l ∈ lanes, l < 2 ^ w)
    (hi : i < lanes.length) :
    (movemask w lanes).testBit i = (lanes.getD i 0).testBit (w - 1) ∧
    movemask w lanes < 2 ^ 32 :=
  ⟨movemask_testBit w lanes i hw hlen hb hi, movemask_lt w lanes hw hb⟩

/-- Witness for C2 at the spec scenario: a 4-lane 32-bit vector with
lanes (negative, positive, positive, negative) puts the lane 3 sign bit
in mask bit 3. -/
theorem movemask_bit_correct_witness :
    ((movemask 32 [2 ^ 31, 5, 7, 2 ^ 31 + 3]).testBit 3
        = (([2 ^ 31, 5, 7, 2 ^ 31 + 3] : List Nat).getD 3 0).testBit 31 ∧
      movemask 32 [2 ^ 31, 5, 7, 2 ^ 31 + 3] < 2 ^ 32) :=
  movemask_bit_correct 32 [2 ^ 31, 5, 7, 2 ^ 31 + 3] 3 (by decide) (by decide)
    (by decide) (by decide)

/-- getD through a map at an index inside the list. -/
theorem getD_map_of_lt (f : Nat → Nat) (l : List Nat) (i : Nat)
    (hi : i < l.length) : (l.map f).getD i 0 = f (l.getD i 0) := by
  induction l generalizing i with
  | nil => simp at hi
  | cons x xs ih =>
    cases i with
    | zero => simp
    | succ j =>
      simp only [List.map_cons, List.getD_cons_succ]
      exact ih j (by simpa using hi)

/-- The mapM worker loop of a function that always succeeds collects the
accumulator and the mapped tail. -/
theorem mapM_loop_ok {α : Type} (f : α → Nat) (l : List α) (acc : List Nat) :
    List.mapM.loop (fun x => (Except.ok (f x) : Except Fatal Nat)) l acc
      = Except.ok (acc.reverse ++ l.map f) := by
  induction l generalizing acc with
  | nil =>
    simp only [List.mapM.loop, List.map_nil, List.append_nil]
    rfl
  | cons x xs ih =>
    show (Except.ok (f x) >>= fun b =>
        List.mapM.loop (fun x => (Except.ok (f x) : Except Fatal Nat)) xs (b :: acc))
      = _
    rw [show (Except.ok (f x) >>= fun b =>
        List.mapM.loop (fun x => (Except.ok (f x) : Except Fatal Nat)) xs (b :: acc))
      = List.mapM.loop (fun x => (Except.ok (f x) : Except Fatal Nat)) xs (f x :: acc) from rfl]
    rw [ih]
    simp

/-- mapM of a function that always succeeds is the plain map. -/
theorem mapM_ok_of_total {α : Type} (f : α → Nat) (l : List α) :
    (l.mapM fun x => (Except.ok (f x) : Except Fatal Nat))
      = Except.ok (l.map f) := by
  rw [List.mapM]
  rw [mapM_loop_ok]
  simp

/-- C4: the logical shift-by-immediate lowerings give, on every lane,
the lane logically shifted by k when k is below 32 and the constant 0
when k is at least 32; end to end, dispatching the two intrinsic names
with a constant immediate writes exactly the shifted vector and jumps to
the successor. -/
theorem shift_imm_lanes_correct (k : Nat) (lanes : List Nat) (i : Nat)
    (ty : LaneTy) (sl bb : Nat) (hi : i < lanes.length) :
    ((psrli_d k lanes).getD i 0
        = if k < 32 then (lanes.getD i 0) / 2 ^ k else 0) ∧
    ((pslli_d k lanes).getD i 0
        = if k < 32 then (lanes.getD i 0) * 2 ^ k % 2 ^ 32 else 0) ∧
    codegen_llvm_intrinsic_call psrliDName
        [Arg.vecVal ty lanes, Arg.rawOperand (some ⟨4, k⟩)] (some (sl, bb))
      = Except.ok [Emit.writeRet (RVal.vec (psrli_d k lanes)),
          Emit.instJump bb] ∧
    codegen_llvm_intrinsic_call pslliDName
        [Arg.vecVal ty lanes, Arg.rawOperand (some ⟨4, k⟩)] (some (sl, bb))
      = Except.ok [Emit.writeRet (RVal.vec (pslli_d k lanes)),
          Emit.instJump bb] := by
  refine ⟨?_, ?_, ?_, ?_⟩
  · rw [psrli_d, getD_map_of_lt _ _ _ hi]
    unfold psrli_d_lane ushr_imm32
    split_ifs with hk
    · rw [show k % 256 % 32 = k by omega]
    · rfl
  · rw [pslli_d, getD_map_of_lt _ _ _ hi]
    unfold pslli_d_lane ishl_imm32
    split_ifs with hk
    · rw [show k % 256 % 32 = k by omega]
    · rfl
  · simp [codegen_llvm_intrinsic_call, dispatch_llvm, psrliDName,
      pmovmskb128Name, pmovmskbAvx2Name, movmskPdName, cmpPsName, cmpPdName,
      pslliDName, storeuDqName, addcarry64Name, subborrow64Name,
      psrli_lowering, retLowering, psrli_core, try_to_bits,
      mapM_ok_of_total, mapM_loop_ok, Except.map, psrli_d, finalize]
  · simp [codegen_llvm_intrinsic_call, dispatch_llvm, psrliDName,
      pmovmskb128Name, pmovmskbAvx2Name, movmskPdName, cmpPsName, cmpPdName,
      pslliDName, storeuDqName, addcarry64Name, subborrow64Name,
      pslli_lowering, retLowering, pslli_core, try_to_bits,
      mapM_ok_of_total, mapM_loop_ok, Except.map, pslli_d, finalize]

/-- Witness for C4 at the spec scenario: shift immediate 35 zeroes every
lane. -/
theorem shift_imm_lanes_correct_witness :
    (((psrli_d 35 [6, 2 ^ 31 + 5]).getD 1 0
        = if 35 < 32 then (([6, 2 ^ 31 + 5] : List Nat).getD 1 0) / 2 ^ 35 else 0) ∧
      ((pslli_d 35 [6, 2 ^ 31 + 5]).getD 1 0
        = if 35 < 32 then (([6, 2 ^ 31 + 5] : List Nat).getD 1 0) * 2 ^ 35 % 2 ^ 32 else 0) ∧
      codegen_llvm_intrinsic_call psrliDName
          [Arg.vecVal (LaneTy.I 32) [6, 2 ^ 31 + 5], Arg.rawOperand (some ⟨4, 35⟩)]
          (some (0, 2))
        = Except.ok [Emit.writeRet (RVal.vec (psrli_d 35 [6, 2 ^ 31 + 5])),
            Emit.instJump 2] ∧
      codegen_llvm_intrinsic_call pslliDName
          [Arg.vecVal (LaneTy.I 32) [6, 2 ^ 31 + 5], Arg.rawOperand (some ⟨4, 35⟩)]
          (some (0, 2))
        = Except.ok [Emit.writeRet (RVal.vec (pslli_d 35 [6, 2 ^ 31 + 5])),
            Emit.instJump 2]) :=
  shift_imm_lanes_correct 35 [6, 2 ^ 31 + 5] 1 (LaneTy.I 32) 0 2 (by decide)

/-- C5: the comparison-kind decode maps 0, 1, 2, 4 to Equal, LessThan,
LessThanOrEqual, NotEqual respectively, recognises 3, 5, 6, 7 as
deliberately unimplemented, fails fatally on every other code, and never
maps a code to any other condition. -/
theorem cmp_kind_decode_correct :
    decode_cmp_kind 0 = KindDecode.ok FloatCC.Equal ∧
    decode_cmp_kind 1 = KindDecode.ok FloatCC.LessThan ∧
    decode_cmp_kind 2 = KindDecode.ok FloatCC.LessThanOrEqual ∧
    decode_cmp_kind 4 = KindDecode.ok FloatCC.NotEqual ∧
    decode_cmp_kind 3 = KindDecode.unimplementedKind ∧
    decode_cmp_kind 5 = KindDecode.unimplementedKind ∧
    decode_cmp_kind 6 = KindDecode.unimplementedKind ∧
    decode_cmp_kind 7 = KindDecode.unimplementedKind ∧
    (∀ k, 7 < k → decode_cmp_kind k = KindDecode.unreachableKind k) ∧
    (∀ k cc, decode_cmp_kind k = KindDecode.ok cc →
      (k = 0 ∧ cc = FloatCC.Equal) ∨ (k = 1 ∧ cc = FloatCC.LessThan) ∨
      (k = 2 ∧ cc = FloatCC.LessThanOrEqual) ∨
      (k = 4 ∧ cc = FloatCC.NotEqual)) := by
  refine ⟨by decide, by decide, by decide, by decide, by decide, by decide,
    by decide, by decide, ?_, ?_⟩
  · intro k hk
    obtain ⟨m, rfl⟩ : ∃ m, k = m + 8 := ⟨k - 8, by omega⟩
    rfl
  · intro k cc h
    unfold decode_cmp_kind at h
    split_ifs at h <;> simp_all

/-- Witness for C5: code 9 hits the unreachable fatal arm. -/
theorem cmp_kind_decode_correct_witness :
    decode_cmp_kind 9 = KindDecode.unreachableKind 9 :=
  cmp_kind_decode_correct.2.2.2.2.2.2.2.2.1 9 (by decide)

/-- The mantissa field is below its width bound. -/
theorem fmant_lt (f : FloatFmt) (x : Nat) : fmant f x < 2 ^ f.mantW :=
  Nat.mod_lt _ (by positivity)

/-- The magnitude bits split into the exponent and mantissa fields. -/
theorem mod_split (f : FloatFmt) (x : Nat) :
    x % 2 ^ (f.mantW + f.expW) = fexp f x * 2 ^ f.mantW + fmant f x := by
  unfold fexp fmant
  rw [pow_add, Nat.mod_mul]
  ring

/-- A bit pattern inside the format width is determined by its sign,
exponent and mantissa fields. -/
theorem decomp (f : FloatFmt) (x : Nat) (hx : x < 2 ^ (f.mantW + f.expW + 1)) :
    x = fsign f x * 2 ^ (f.mantW + f.expW) + fexp f x * 2 ^ f.mantW + fmant f x := by
  have hlt : x / 2 ^ (f.mantW + f.expW) < 2 := by
    rw [Nat.div_lt_iff_lt_mul (by positivity)]
    calc x < 2 ^ (f.mantW + f.expW + 1) := hx
    _ = 2 ^ (f.mantW + f.expW) * 2 := by rw [pow_succ]
    _ ≤ 2 * 2 ^ (f.mantW + f.expW) := by omega
  have hsign : fsign f x = x / 2 ^ (f.mantW + f.expW) := by
    unfold fsign
    exact Nat.mod_eq_of_lt hlt
  rw [hsign, Nat.add_assoc, ← mod_split f x]
  exact (Nat.div_add_mod' x (2 ^ (f.mantW + f.expW))).symm

/-- A pattern is a zero exactly when its exponent and mantissa fields
are both zero. -/
theorem fisZero_iff (f : FloatFmt) (x : Nat) :
    fisZero f x = true ↔ (fexp f x = 0 ∧ fmant f x = 0) := by
  unfold fisZero
  rw [decide_eq_true_eq, mod_split f x]
  constructor
  · intro h
    have h1 : 0 < 2 ^ f.mantW := by positivity
    constructor
    · by_contra hne
      have : 2 ^ f.mantW ≤ fexp f x * 2 ^ f.mantW := Nat.le_mul_of_pos_left _ (by omega)
      omega
    · omega
  · intro ⟨h1, h2⟩
    rw [h1, h2]
    ring

/-- The magnitude vanishes exactly on the zero patterns. -/
theorem fmag_eq_zero_iff (f : FloatFmt) (x : Nat) :
    fmag f x = 0 ↔ (fexp f x = 0 ∧ fmant f x = 0) := by
  unfold fmag
  split_ifs with h
  · simp [h]
  · constructor
    · intro hz
      exfalso
      have h1 : 0 < 2 ^ f.mantW + fmant f x := by positivity
      have h2 : 0 < 2 ^ (fexp f x - 1) := by positivity
      have := Nat.mul_pos h1 h2
      omega
    · intro ⟨h1, _⟩
      exact absurd h1 h

/-- The magnitude map on (exponent, mantissa) pairs is injective when
the mantissa respects its width bound: the normal and subnormal ranges
are disjoint and ordered by exponent. -/
theorem mag_inj_aux (M e1 m1 e2 m2 : Nat) (hm1 : m1 < 2 ^ M) (hm2 : m2 < 2 ^ M)
    (h : (if e1 = 0 then m1 else (2 ^ M + m1) * 2 ^ (e1 - 1))
       = (if e2 = 0 then m2 else (2 ^ M + m2) * 2 ^ (e2 - 1))) :
    e1 = e2 ∧ m1 = m2 := by
  have key : ∀ e m e' m' : Nat, m < 2 ^ M → e ≠ 0 → e' ≠ 0 → e < e' →
      (2 ^ M + m) * 2 ^ (e - 1) < (2 ^ M + m') * 2 ^ (e' - 1) := by
    intro e m e' m' hm he he' hlt
    have hm2 : 2 ^ M + 2 ^ M = 2 ^ (M + 1) := by
      rw [pow_succ]
      ring
    calc (2 ^ M + m) * 2 ^ (e - 1) < (2 ^ M + 2 ^ M) * 2 ^ (e - 1) := by
          have hp : 0 < 2 ^ (e - 1) := by positivity
          exact Nat.mul_lt_mul_of_lt_of_le (by omega) (le_refl _) hp
    _ = 2 ^ (M + 1) * 2 ^ (e - 1) := by rw [hm2]
    _ = 2 ^ (M + 1 + (e - 1)) := (pow_add 2 (M + 1) (e - 1)).symm
    _ ≤ 2 ^ (M + (e' - 1)) := Nat.pow_le_pow_right (by omega) (by omega)
    _ = 2 ^ M * 2 ^ (e' - 1) := by rw [pow_add]
    _ ≤ (2 ^ M + m') * 2 ^ (e' - 1) := Nat.mul_le_mul_right _ (Nat.le_add_right _ _)
  have hge : ∀ m m' e' : Nat, m < 2 ^ M → e' ≠ 0 →
      m < (2 ^ M + m') * 2 ^ (e' - 1) := by
    intro m m' e' hm he'
    calc m < 2 ^ M := hm
    _ ≤ 2 ^ M + m' := Nat.le_add_right _ _
    _ = (2 ^ M + m') * 1 := (mul_one _).symm
    _ ≤ (2 ^ M + m') * 2 ^ (e' - 1) := Nat.mul_le_mul_left _ (Nat.one_le_two_pow)
  split_ifs at h with h1 h2 h2
  · exact ⟨h1.trans h2.symm, h⟩
  · exact absurd h (Nat.ne_of_lt (hge m1 m2 e2 hm1 h2))
  · exact absurd h.symm (Nat.ne_of_lt (hge m2 m1 e1 hm2 h1))
  · rcases Nat.lt_trichotomy e1 e2 with hlt | heq | hgt
    · exact absurd h (Nat.ne_of_lt (key e1 m1 e2 m2 hm1 h1 h2 hlt))
    · refine ⟨heq, ?_⟩
      rw [heq] at h
      have hp : 0 < 2 ^ (e2 - 1) := by positivity
      have := Nat.eq_of_mul_eq_mul_right hp h
      omega
    · exact absurd h.symm (Nat.ne_of_lt (key e2 m2 e1 m1 hm2 h2 h1 hgt))

/-- Equal magnitudes force equal exponent and mantissa fields. -/
theorem fmag_injective (f : FloatFmt) (x y : Nat) (h : fmag f x = fmag f y) :
    fexp f x = fexp f y ∧ fmant f x = fmant f y := by
  unfold fmag at h
  exact mag_inj_aux f.mantW (fexp f x) (fmant f x) (fexp f y) (fmant f y)
    (fmant_lt f x) (fmant_lt f y) h

/-- Two in-range bit patterns have equal IEEE values exactly when they
are bit-equal or are the two zeros. -/
theorem fval_eq_iff (f : FloatFmt) (x y : Nat)
    (hx : x < 2 ^ (f.mantW + f.expW + 1)) (hy : y < 2 ^ (f.mantW + f.expW + 1)) :
    fval f x = fval f y ↔ (x = y ∨ (fisZero f x = true ∧ fisZero f y = true)) := by
  constructor
  · intro h
    unfold fval at h
    have hsx : fsign f x = 0 ∨ fsign f x = 1 := by unfold fsign; omega
    have hsy : fsign f y = 0 ∨ fsign f y = 1 := by unfold fsign; omega
    have zero_case : fmag f x = 0 → fmag f y = 0 →
        x = y ∨ (fisZero f x = true ∧ fisZero f y = true) := by
      intro hzx hzy
      right
      rw [fmag_eq_zero_iff] at hzx hzy
      exact ⟨(fisZero_iff f x).mpr hzx, (fisZero_iff f y).mpr hzy⟩
    have same_sign : fsign f x = fsign f y → fmag f x = fmag f y →
        x = y ∨ (fisZero f x = true ∧ fisZero f y = true) := by
      intro hs hm
      left
      have hem := fmag_injective f x y hm
      rw [decomp f x hx, decomp f y hy, hs, hem.1, hem.2]
    rcases hsx with h0 | h0 <;> rcases hsy with h1 | h1
    · rw [h0, h1] at h
      norm_num at h
      exact same_sign (h0.trans h1.symm) (by exact_mod_cast h)
    · rw [h0, h1] at h
      norm_num at h
      have hzx : fmag f x = 0 ∧ fmag f y = 0 := by omega
      exact zero_case hzx.1 hzx.2
    · rw [h0, h1] at h
      norm_num at h
      have hzx : fmag f x = 0 ∧ fmag f y = 0 := by omega
      exact zero_case hzx.1 hzx.2
    · rw [h0, h1] at h
      norm_num at h
      exact same_sign (h0.trans h1.symm) (by exact_mod_cast h)
  · intro h
    rcases h with rfl | ⟨hzx, hzy⟩
    · rfl
    · rw [fisZero_iff] at hzx hzy
      have hx0 : fmag f x = 0 := (fmag_eq_zero_iff f x).mpr hzx
      have hy0 : fmag f y = 0 := (fmag_eq_zero_iff f y).mpr hzy
      unfold fval
      rw [hx0, hy0]
      simp

/-- The fcmp Equal semantics on NaN-free in-range patterns: true exactly
on bit-equal patterns and on the pair of zeros. -/
theorem fcmp_equal_iff (f : FloatFmt) (x y : Nat)
    (hx : x < 2 ^ (f.mantW + f.expW + 1)) (hy : y < 2 ^ (f.mantW + f.expW + 1))
    (hnx : fisNaN f x = false) (hny : fisNaN f y = false) :
    fcmp f FloatCC.Equal x y = true
      ↔ (x = y ∨ (fisZero f x = true ∧ fisZero f y = true)) := by
  unfold fcmp
  rw [hnx, hny]
  rw [show (false || false) = false from rfl]
  rw [if_neg (by decide)]
  rw [decide_eq_true_eq]
  exact fval_eq_iff f x y hx hy

/-- C7 (amended): the Equal compare lane yields the full-width all-ones
pattern exactly when the NaN-free lanes are value-equal, that is
bit-equal or both zeros, and all-zero otherwise; a non-float lane type
is a fatal invariant violation; over whole vectors of equal lane count
the lowering applies this to every lane pair. -/
theorem cmp_equal_lanes_correct (x y : Nat) :
    (x < 2 ^ 32 → y < 2 ^ 32 → fisNaN fmt32 x = false → fisNaN fmt32 y = false →
      cmp_lane FloatCC.Equal LaneTy.F32 x y
        = Except.ok (if x = y ∨ (fisZero fmt32 x = true ∧ fisZero fmt32 y = true)
            then 2 ^ 32 - 1 else 0)) ∧
    (x < 2 ^ 64 → y < 2 ^ 64 → fisNaN fmt64 x = false → fisNaN fmt64 y = false →
      cmp_lane FloatCC.Equal LaneTy.F64 x y
        = Except.ok (if x = y ∨ (fisZero fmt64 x = true ∧ fisZero fmt64 y = true)
            then 2 ^ 64 - 1 else 0)) ∧
    (∀ w, cmp_lane FloatCC.Equal (LaneTy.I w) x y = Except.error Fatal.nonFloatLane) ∧
    (∀ xs ys : List Nat, xs.length = ys.length →
      simd_pair_map (cmp_lane FloatCC.Equal LaneTy.F32) xs ys
        = Except.ok ((xs.zip ys).map fun p =>
            bool_to_zero_or_max_uint 32 (fcmp fmt32 FloatCC.Equal p.1 p.2))) := by
  refine ⟨?_, ?_, ?_, ?_⟩
  · intro hx hy hnx hny
    have hiff := fcmp_equal_iff fmt32 x y hx hy hnx hny
    unfold cmp_lane
    unfold bool_to_zero_or_max_uint
    by_cases hP : x = y ∨ (fisZero fmt32 x = true ∧ fisZero fmt32 y = true)
    · rw [if_pos (hiff.mpr hP), if_pos hP]
    · rw [if_neg (fun hc => hP (hiff.mp hc)), if_neg hP]
  · intro hx hy hnx hny
    have hiff := fcmp_equal_iff fmt64 x y hx hy hnx hny
    unfold cmp_lane
    unfold bool_to_zero_or_max_uint
    by_cases hP : x = y ∨ (fisZero fmt64 x = true ∧ fisZero fmt64 y = true)
    · rw [if_pos (hiff.mpr hP), if_pos hP]
    · rw [if_neg (fun hc => hP (hiff.mp hc)), if_neg hP]
  · intro w
    rfl
  · intro xs ys hlen
    unfold simd_pair_map
    rw [if_pos hlen]
    rw [show (fun p : Nat × Nat => cmp_lane FloatCC.Equal LaneTy.F32 p.1 p.2)
      = fun p : Nat × Nat =>
          Except.ok (bool_to_zero_or_max_uint 32 (fcmp fmt32 FloatCC.Equal p.1 p.2)) from rfl]
    exact mapM_ok_of_total _ _

/-- Counterexample for C7 as frozen: the NaN-free patterns of positive
and negative zero compare equal, so the lane is all-ones, although the
bit patterns differ. -/
theorem cmp_equal_zero_counterexample :
    cmp_lane FloatCC.Equal LaneTy.F32 0 (2 ^ 31) = Except.ok (2 ^ 32 - 1) ∧
    (0 : Nat) ≠ 2 ^ 31 ∧
    fisNaN fmt32 0 = false ∧ fisNaN fmt32 (2 ^ 31) = false := by
  refine ⟨?_, by decide, by decide, by decide⟩
  rfl

/-- Witness for C7 at negative zero against positive zero. -/
theorem cmp_equal_lanes_correct_witness :
    cmp_lane FloatCC.Equal LaneTy.F32 (2 ^ 31) 0
      = Except.ok (if (2 ^ 31 : Nat) = 0 ∨
            (fisZero fmt32 (2 ^ 31) = true ∧ fisZero fmt32 0 = true)
          then 2 ^ 32 - 1 else 0) :=
  (cmp_equal_lanes_correct (2 ^ 31) 0).1 (by decide) (by decide) (by decide)
    (by decide)

/-- A lowering arm that wraps its value core emits exactly one write of
the destination when it succeeds. -/
theorem retLowering_shape (core : Except Fatal RVal) (body : List Emit)
    (h : retLowering core = Except.ok body) : ∃ v, body = [Emit.writeRet v] := by
  unfold retLowering at h
  cases core with
  | error e => exact Except.noConfusion h
  | ok v => exact ⟨v, (Except.ok.inj h).symm⟩

/-- The store arm emits exactly one memory store when it succeeds. -/
theorem storeu_shape (args : List Arg) (body : List Emit)
    (h : storeu_lowering args = Except.ok body) :
    ∃ ad ls, body = [Emit.instStore ad ls] := by
  unfold storeu_lowering at h
  split at h
  · exact ⟨_, _, (Except.ok.inj h).symm⟩
  · exact Except.noConfusion h

/-- Every successful dispatch body is either a single destination write,
a single memory store, or the fallback pair of one diagnostic and one
trap. -/
theorem dispatch_ok_shape (intrinsic : String) (args : List Arg)
    (body : List Emit) (h : dispatch_llvm intrinsic args = Except.ok body) :
    (∃ v, body = [Emit.writeRet v]) ∨ (∃ ad ls, body = [Emit.instStore ad ls]) ∨
    body = [Emit.diagWarn (warnMessage intrinsic),
      Emit.instTrapUnimplemented intrinsic] := by
  unfold dispatch_llvm at h
  split_ifs at h
  · exact Or.inl (retLowering_shape _ _ h)
  · exact Or.inl (retLowering_shape _ _ h)
  · exact Or.inl (retLowering_shape _ _ h)
  · exact Or.inl (retLowering_shape _ _ h)
  · exact Or.inr (Or.inl (storeu_shape _ _ h))
  · exact Or.inl (retLowering_shape _ _ h)
  · exact Or.inl (retLowering_shape _ _ h)
  · exact Or.inr (Or.inr (Except.ok.inj h).symm)

/-- A name outside the dispatch table always takes the fallback arm. -/
theorem dispatch_not_mem (intrinsic : String) (args : List Arg)
    (h : intrinsic ∉ dispatchTable) :
    dispatch_llvm intrinsic args
      = Except.ok [Emit.diagWarn (warnMessage intrinsic),
          Emit.instTrapUnimplemented intrinsic] := by
  simp only [dispatchTable, List.mem_cons, List.not_mem_nil, or_false,
    not_or] at h
  obtain ⟨h1, h2, h3, h4, h5, h6, h7, h8, h9, h10⟩ := h
  unfold dispatch_llvm
  rw [if_neg (by simp [h1, h2, h3]), if_neg (by simp [h4, h5]), if_neg h6,
    if_neg h7, if_neg h8, if_neg h9, if_neg h10]

/-- A successful invocation with a destination decomposes into the
dispatch body followed by the jump to the successor block. -/
theorem codegen_ok_elim (intrinsic : String) (args : List Arg) (sl bb : Nat)
    (emits : List Emit)
    (h : codegen_llvm_intrinsic_call intrinsic args (some (sl, bb))
      = Except.ok emits) :
    ∃ body, dispatch_llvm intrinsic args = Except.ok body ∧
      emits = body ++ [Emit.instJump bb] := by
  unfold codegen_llvm_intrinsic_call at h
  cases hd : dispatch_llvm intrinsic args with
  | error e =>
    rw [hd] at h
    exact Except.noConfusion h
  | ok body =>
    rw [hd] at h
    exact ⟨body, rfl, (Except.ok.inj h).symm⟩

/-- C3 (amended): when the destination is absent, the lowering aborts
fatally at the destination unwrap before emitting anything, so neither a
jump nor the corruption trap is emitted; the trap branch of the
finalizer exists but is unreachable. -/
theorem destination_none_aborts (intrinsic : String) (args : List Arg) :
    codegen_llvm_intrinsic_call intrinsic args none
        = Except.error Fatal.unwrapNone ∧
    finalize none = [Emit.instTrapUnreachable corruptionMessage] :=
  ⟨rfl, rfl⟩

/-- Counterexample for C3 as frozen: with the destination absent the
engine does not emit a corruption trap; it aborts at the unwrap and
emits nothing at all. -/
theorem destination_none_counterexample :
    codegen_llvm_intrinsic_call unknownIntrinsicName [] none
        = Except.error Fatal.unwrapNone ∧
    ∀ emits : List Emit,
      codegen_llvm_intrinsic_call unknownIntrinsicName [] none
        ≠ Except.ok emits := by
  refine ⟨rfl, ?_⟩
  intro emits h
  have h2 : (Except.error Fatal.unwrapNone : Except Fatal (List Emit))
      = Except.ok emits := h
  exact Except.noConfusion h2

/-- C6: an intrinsic name outside the dispatch table produces exactly
one diagnostic naming it and a trap replacing the call (followed by the
finalizer jump), with no destination write, no store, and no lane or
constant lowering logic executed. -/
theorem unsupported_fallback_correct (intrinsic : String) (args : List Arg)
    (sl bb : Nat) (h : intrinsic ∉ dispatchTable) :
    codegen_llvm_intrinsic_call intrinsic args (some (sl, bb))
      = Except.ok [Emit.diagWarn (warnMessage intrinsic),
          Emit.instTrapUnimplemented intrinsic, Emit.instJump bb] ∧
    ([Emit.diagWarn (warnMessage intrinsic),
        Emit.instTrapUnimplemented intrinsic,
        Emit.instJump bb].filter isDiagE).length = 1 ∧
    ∀ e ∈ [Emit.diagWarn (warnMessage intrinsic),
        Emit.instTrapUnimplemented intrinsic, Emit.instJump bb],
      isRetWriteE e = false ∧ isStoreE e = false := by
  refine ⟨?_, rfl, ?_⟩
  · unfold codegen_llvm_intrinsic_call
    rw [dispatch_not_mem intrinsic args h]
    rfl
  · intro e he
    simp only [List.mem_cons, List.not_mem_nil, or_false] at he
    rcases he with rfl | rfl | rfl <;> exact ⟨rfl, rfl⟩

/-- Witness for C6 at a concrete unsupported name. -/
theorem unsupported_fallback_correct_witness :
    codegen_llvm_intrinsic_call unknownIntrinsicName [] (some (0, 3))
      = Except.ok [Emit.diagWarn (warnMessage unknownIntrinsicName),
          Emit.instTrapUnimplemented unknownIntrinsicName, Emit.instJump 3] :=
  (unsupported_fallback_correct unknownIntrinsicName [] 0 3 (by decide)).1

/-- Counterexample for C8 as frozen: on the fallback path the emitted
sequence holds two terminator-class instructions, the trap replacing the
call and the jump appended by the finalizer, not exactly one. -/
theorem terminator_count_counterexample :
    codegen_llvm_intrinsic_call unknownIntrinsicName [] (some (0, 7))
      = Except.ok [Emit.diagWarn (warnMessage unknownIntrinsicName),
          Emit.instTrapUnimplemented unknownIntrinsicName, Emit.instJump 7] ∧
    ([Emit.diagWarn (warnMessage unknownIntrinsicName),
        Emit.instTrapUnimplemented unknownIntrinsicName,
        Emit.instJump 7].filter isTerminatorE).length = 2 := by
  refine ⟨?_, rfl⟩
  exact (unsupported_fallback_correct unknownIntrinsicName [] 0 7 (by decide)).1

/-- C8 (amended): every completed invocation ends in exactly one jump to
the successor block; the only other terminator-class instruction that
can precede it is the trap replacing an unrecognised call; and the
destination storage location is written at most once. -/
theorem terminator_discipline (intrinsic : String) (args : List Arg)
    (sl bb : Nat) (emits : List Emit)
    (h : codegen_llvm_intrinsic_call intrinsic args (some (sl, bb))
      = Except.ok emits) :
    emits.getLast? = some (Emit.instJump bb) ∧
    (∀ e ∈ emits.dropLast,
      isTerminatorE e = false ∨ e = Emit.instTrapUnimplemented intrinsic) ∧
    (emits.filter isRetWriteE).length ≤ 1 := by
  obtain ⟨body, hd, rfl⟩ := codegen_ok_elim intrinsic args sl bb emits h
  rcases dispatch_ok_shape intrinsic args body hd with
    ⟨v, rfl⟩ | ⟨ad, ls, rfl⟩ | rfl
  · refine ⟨rfl, ?_, by simp [isRetWriteE, isTerminatorE]⟩
    intro e he
    simp only [List.dropLast_concat, List.mem_singleton] at he
    subst he
    exact Or.inl rfl
  · refine ⟨rfl, ?_, by simp [isRetWriteE, isTerminatorE]⟩
    intro e he
    simp only [List.dropLast_concat, List.mem_singleton] at he
    subst he
    exact Or.inl rfl
  · refine ⟨rfl, ?_, by simp [isRetWriteE, isTerminatorE]⟩
    intro e he
    simp only [List.dropLast_concat, List.mem_cons, List.not_mem_nil,
      or_false] at he
    rcases he with rfl | rfl
    · exact Or.inl rfl
    · exact Or.inr rfl

/-- Witness for C8 at a concrete completed addcarry invocation. -/
theorem terminator_discipline_witness :
    ([Emit.writeRet (RVal.pairU8U64 0 13), Emit.instJump 5] : List Emit).getLast?
        = some (Emit.instJump 5) ∧
    (∀ e ∈ ([Emit.writeRet (RVal.pairU8U64 0 13), Emit.instJump 5] : List Emit).dropLast,
      isTerminatorE e = false ∨ e = Emit.instTrapUnimplemented addcarry64Name) ∧
    (([Emit.writeRet (RVal.pairU8U64 0 13), Emit.instJump 5] : List Emit).filter
        isRetWriteE).length ≤ 1 :=
  terminator_discipline addcarry64Name
    [Arg.scalarVal RTy.otherTy 1, Arg.scalarVal RTy.u64 5, Arg.scalarVal RTy.u64 7]
    0 5 [Emit.writeRet (RVal.pairU8U64 0 13), Emit.instJump 5] (by rfl)

/-- C9: a movemask lowering whose input vector has more than 32 lanes
aborts fatally at the lane-count assert before emitting anything. -/
theorem movemask_lane_count_guard (intrinsic : String) (ty : LaneTy)
    (lanes : List Nat) (sl bb : Nat)
    (hname : intrinsic = pmovmskb128Name ∨ intrinsic = pmovmskbAvx2Name ∨
      intrinsic = movmskPdName)
    (hlen : 32 < lanes.length) :
    codegen_llvm_intrinsic_call intrinsic [Arg.vecVal ty lanes] (some (sl, bb))
      = Except.error Fatal.assertLaneCount := by
  have hcore : movemask_core [Arg.vecVal ty lanes]
      = Except.error Fatal.assertLaneCount := by
    show (if lanes.length ≤ 32 then Except.ok (RVal.scalar 32 (movemask ty.bits lanes))
        else Except.error Fatal.assertLaneCount) = Except.error Fatal.assertLaneCount
    rw [if_neg (by omega)]
  have hd : dispatch_llvm intrinsic [Arg.vecVal ty lanes]
      = Except.error Fatal.assertLaneCount := by
    unfold dispatch_llvm
    rw [if_pos hname]
    unfold movemask_lowering retLowering
    rw [hcore]
    rfl
  unfold codegen_llvm_intrinsic_call
  rw [hd]

/-- Witness for C9 with 33 lanes. -/
theorem movemask_lane_count_guard_witness :
    codegen_llvm_intrinsic_call pmovmskb128Name
        [Arg.vecVal (LaneTy.I 8) (List.replicate 33 0)] (some (0, 1))
      = Except.error Fatal.assertLaneCount :=
  movemask_lane_count_guard pmovmskb128Name (LaneTy.I 8) (List.replicate 33 0)
    0 1 (Or.inl rfl) (by simp)

end LlvmIntrinsics
